import Mathlib

/-!
Verification of `whatsmyname/app/tasks/process.py`.

The module is embedded shallowly: strings are lists of characters,
Python objects become structures, the `aiohttp` network layer is
abstracted into an explicit per-probe network result, and the mutating
loops of the source become structurally recursive Lean functions that
thread their state.  Every definition mirrors the corresponding lines of
the source file; the only definitions written from the design document
are the ones explicitly marked as such (the two pydantic schema modules
are not part of the sources, and the staged corpus pipeline plus the
direct nested-loop generator serve as specification sides of refinement
claims).
-/

abbrev Str := List Char

/-- Python `str.lower()`, applied characterwise. -/
def lowerStr (s : Str) : Str := s.map Char.toLower

/-- Python `str.replace(pat, rep)` for a nonempty `pat`: replace every
non-overlapping occurrence of `pat`, scanning left to right and never
rescanning replaced text.  The extra `Nat` argument is structural fuel;
`replaceAll` below instantiates it with the length of the subject. -/
def replaceAllF (pat rep : Str) : Nat → Str → Str
  | 0, s => s
  | _ + 1, [] => []
  | fuel + 1, c :: rest =>
    if pat ≠ [] ∧ pat.isPrefixOf (c :: rest) = true then
      rep ++ replaceAllF pat rep fuel (List.drop pat.length (c :: rest))
    else
      c :: replaceAllF pat rep fuel rest

/-- Python `s.replace(pat, rep)` (nonempty `pat`). -/
def replaceAll (pat rep s : Str) : Str := replaceAllF pat rep s.length s

/-- Python `s.count(pat)` for a nonempty `pat`: the number of
non-overlapping occurrences, scanning left to right.  Fueled like
`replaceAllF`. -/
def countOccsF (pat : Str) : Nat → Str → Nat
  | 0, _ => 0
  | _ + 1, [] => 0
  | fuel + 1, c :: rest =>
    if pat ≠ [] ∧ pat.isPrefixOf (c :: rest) = true then
      1 + countOccsF pat fuel (List.drop pat.length (c :: rest))
    else
      countOccsF pat fuel rest

/-- Python `s.count(pat)` (nonempty `pat`). -/
def countOccs (pat s : Str) : Nat := countOccsF pat s.length s

theorem replaceAllF_fuel_invariant (pat rep : Str) :
    ∀ f1 f2 s, s.length ≤ f1 → s.length ≤ f2 →
      replaceAllF pat rep f1 s = replaceAllF pat rep f2 s := by
  intro f1
  induction f1 with
  | zero =>
    intro f2 s hs1 _
    have hs : s = [] := List.eq_nil_of_length_eq_zero (Nat.le_zero.mp hs1)
    subst hs
    cases f2 <;> rfl
  | succ f ih =>
    intro f2 s hs1 hs2
    cases s with
    | nil => cases f2 <;> rfl
    | cons c rest =>
      cases f2 with
      | zero => simp at hs2
      | succ f2' =>
        simp only [replaceAllF]
        by_cases h : pat ≠ [] ∧ pat.isPrefixOf (c :: rest) = true
        · rw [if_pos h, if_pos h]
          have hp : 1 ≤ pat.length := by
            cases pat with
            | nil => exact absurd rfl h.1
            | cons _ _ => simp
          have hd : (List.drop pat.length (c :: rest)).length ≤ f := by
            rw [List.length_drop]
            simp only [List.length_cons] at hs1 ⊢
            omega
          have hd2 : (List.drop pat.length (c :: rest)).length ≤ f2' := by
            rw [List.length_drop]
            simp only [List.length_cons] at hs2 ⊢
            omega
          rw [ih f2' _ hd hd2]
        · rw [if_neg h, if_neg h]
          have hr : rest.length ≤ f := by
            simp only [List.length_cons] at hs1; omega
          have hr2 : rest.length ≤ f2' := by
            simp only [List.length_cons] at hs2; omega
          rw [ih f2' _ hr hr2]

theorem countOccsF_fuel_invariant (pat : Str) :
    ∀ f1 f2 s, s.length ≤ f1 → s.length ≤ f2 →
      countOccsF pat f1 s = countOccsF pat f2 s := by
  intro f1
  induction f1 with
  | zero =>
    intro f2 s hs1 _
    have hs : s = [] := List.eq_nil_of_length_eq_zero (Nat.le_zero.mp hs1)
    subst hs
    cases f2 <;> rfl
  | succ f ih =>
    intro f2 s hs1 hs2
    cases s with
    | nil => cases f2 <;> rfl
    | cons c rest =>
      cases f2 with
      | zero => simp at hs2
      | succ f2' =>
        simp only [countOccsF]
        by_cases h : pat ≠ [] ∧ pat.isPrefixOf (c :: rest) = true
        · rw [if_pos h, if_pos h]
          have hp : 1 ≤ pat.length := by
            cases pat with
            | nil => exact absurd rfl h.1
            | cons _ _ => simp
          have hd : (List.drop pat.length (c :: rest)).length ≤ f := by
            rw [List.length_drop]
            simp only [List.length_cons] at hs1 ⊢
            omega
          have hd2 : (List.drop pat.length (c :: rest)).length ≤ f2' := by
            rw [List.length_drop]
            simp only [List.length_cons] at hs2 ⊢
            omega
          rw [ih f2' _ hd hd2]
        · rw [if_neg h, if_neg h]
          have hr : rest.length ≤ f := by
            simp only [List.length_cons] at hs1; omega
          have hr2 : rest.length ≤ f2' := by
            simp only [List.length_cons] at hs2; omega
          rw [ih f2' _ hr hr2]

theorem replaceAll_nil (pat rep : Str) : replaceAll pat rep [] = [] := rfl

theorem countOccs_nil (pat : Str) : countOccs pat [] = 0 := rfl

theorem replaceAll_match (pat rep : Str) (c : Char) (rest : Str)
    (h1 : pat ≠ []) (h2 : pat.isPrefixOf (c :: rest) = true) :
    replaceAll pat rep (c :: rest) =
      rep ++ replaceAll pat rep (List.drop pat.length (c :: rest)) := by
  have hp : 1 ≤ pat.length := by
    cases pat with
    | nil => exact absurd rfl h1
    | cons _ _ => simp
  show replaceAllF pat rep (c :: rest).length (c :: rest) = _
  simp only [List.length_cons, replaceAllF, if_pos (And.intro h1 h2)]
  congr 1
  apply replaceAllF_fuel_invariant
  · rw [List.length_drop]; simp only [List.length_cons]; omega
  · exact le_rfl

theorem replaceAll_nomatch (pat rep : Str) (c : Char) (rest : Str)
    (h : ¬(pat ≠ [] ∧ pat.isPrefixOf (c :: rest) = true)) :
    replaceAll pat rep (c :: rest) = c :: replaceAll pat rep rest := by
  show replaceAllF pat rep (c :: rest).length (c :: rest) = _
  simp only [List.length_cons, replaceAllF, if_neg h]
  rfl

theorem countOccs_match (pat : Str) (c : Char) (rest : Str)
    (h1 : pat ≠ []) (h2 : pat.isPrefixOf (c :: rest) = true) :
    countOccs pat (c :: rest) =
      1 + countOccs pat (List.drop pat.length (c :: rest)) := by
  have hp : 1 ≤ pat.length := by
    cases pat with
    | nil => exact absurd rfl h1
    | cons _ _ => simp
  show countOccsF pat (c :: rest).length (c :: rest) = _
  simp only [List.length_cons, countOccsF, if_pos (And.intro h1 h2)]
  congr 1
  apply countOccsF_fuel_invariant
  · rw [List.length_drop]; simp only [List.length_cons]; omega
  · exact le_rfl

theorem countOccs_nomatch (pat : Str) (c : Char) (rest : Str)
    (h : ¬(pat ≠ [] ∧ pat.isPrefixOf (c :: rest) = true)) :
    countOccs pat (c :: rest) = countOccs pat rest := by
  show countOccsF pat (c :: rest).length (c :: rest) = _
  simp only [List.length_cons, countOccsF, if_neg h]
  rfl

theorem isPrefixOf_exists_append :
    ∀ (p s : Str), p.isPrefixOf s = true → ∃ t, s = p ++ t := by
  intro p
  induction p with
  | nil => intro s _; exact ⟨s, rfl⟩
  | cons a as ih =>
    intro s h
    cases s with
    | nil => simp [List.isPrefixOf] at h
    | cons b bs =>
      simp only [List.isPrefixOf, Bool.and_eq_true, beq_iff_eq] at h
      obtain ⟨t, ht⟩ := ih bs h.2
      exact ⟨t, by simp [h.1, ht]⟩

theorem isPrefixOf_append_extend :
    ∀ (p s t : Str), p.isPrefixOf s = true → p.isPrefixOf (s ++ t) = true := by
  intro p
  induction p with
  | nil => intro s t _; cases s <;> simp [List.isPrefixOf]
  | cons a as ih =>
    intro s t h
    cases s with
    | nil => simp [List.isPrefixOf] at h
    | cons b bs =>
      simp only [List.isPrefixOf, Bool.and_eq_true, beq_iff_eq] at h ⊢
      exact ⟨h.1, ih bs t h.2⟩

theorem replaceAll_of_countOccs_zero (pat u : Str) :
    ∀ s, countOccs pat s = 0 → replaceAll pat u s = s := by
  suffices h : ∀ fuel s, s.length ≤ fuel → countOccs pat s = 0 →
      replaceAll pat u s = s by
    intro s; exact h s.length s le_rfl
  intro fuel
  induction fuel with
  | zero =>
    intro s hs _
    have : s = [] := List.eq_nil_of_length_eq_zero (Nat.le_zero.mp hs)
    subst this; rfl
  | succ f ih =>
    intro s hs h0
    cases s with
    | nil => rfl
    | cons c rest =>
      by_cases hc : pat ≠ [] ∧ pat.isPrefixOf (c :: rest) = true
      · rw [countOccs_match pat c rest hc.1 hc.2] at h0
        omega
      · rw [countOccs_nomatch pat c rest hc] at h0
        rw [replaceAll_nomatch pat u c rest hc]
        have hr : rest.length ≤ f := by
          simp only [List.length_cons] at hs; omega
        rw [ih rest hr h0]

/-- When `pat` occurs exactly once in `t`, `replaceAll` substitutes `rep`
for that unique occurrence in place: `t` decomposes as
`pre ++ pat ++ suf` with no occurrence inside `pre`, and the result is
`pre ++ rep ++ suf`. -/
theorem replaceAll_single_occurrence (pat rep : Str) (hpat : pat ≠ []) :
    ∀ t, countOccs pat t = 1 →
      ∃ pre suf, t = pre ++ pat ++ suf ∧ countOccs pat pre = 0 ∧
        replaceAll pat rep t = pre ++ rep ++ suf := by
  suffices h : ∀ fuel t, t.length ≤ fuel → countOccs pat t = 1 →
      ∃ pre suf, t = pre ++ pat ++ suf ∧ countOccs pat pre = 0 ∧
        replaceAll pat rep t = pre ++ rep ++ suf by
    intro t; exact h t.length t le_rfl
  intro fuel
  induction fuel with
  | zero =>
    intro t ht h1
    have : t = [] := List.eq_nil_of_length_eq_zero (Nat.le_zero.mp ht)
    subst this
    simp [countOccs_nil] at h1
  | succ f ih =>
    intro t ht h1
    cases t with
    | nil => simp [countOccs_nil] at h1
    | cons c rest =>
      by_cases hc : pat ≠ [] ∧ pat.isPrefixOf (c :: rest) = true
      · -- the unique occurrence starts right here
        rw [countOccs_match pat c rest hc.1 hc.2] at h1
        have h0 : countOccs pat (List.drop pat.length (c :: rest)) = 0 := by
          omega
        obtain ⟨t0, ht0⟩ := isPrefixOf_exists_append pat (c :: rest) hc.2
        have hdrop : List.drop pat.length (c :: rest) = t0 := by
          rw [ht0]; exact List.drop_left pat t0
        refine ⟨[], t0, by simpa using ht0, countOccs_nil pat, ?_⟩
        rw [replaceAll_match pat rep c rest hc.1 hc.2, hdrop,
          replaceAll_of_countOccs_zero pat rep t0 (hdrop ▸ h0)]
        simp
      · -- no occurrence at the head; recurse into the tail
        rw [countOccs_nomatch pat c rest hc] at h1
        have hr : rest.length ≤ f := by
          simp only [List.length_cons] at ht; omega
        obtain ⟨pre, suf, hdec, hz, hrep⟩ := ih rest hr h1
        refine ⟨c :: pre, suf, by simp [hdec], ?_, ?_⟩
        · -- no occurrence may start at the new head either
          have hnc : ¬(pat ≠ [] ∧ pat.isPrefixOf (c :: pre) = true) := by
            rintro ⟨-, hpre⟩
            apply hc
            refine ⟨hpat, ?_⟩
            have : (c :: pre) ++ (pat ++ suf) = c :: rest := by
              simp [hdec]
            calc pat.isPrefixOf (c :: rest)
                = pat.isPrefixOf ((c :: pre) ++ (pat ++ suf)) := by rw [this]
              _ = true := isPrefixOf_append_extend pat (c :: pre) (pat ++ suf) hpre
          rw [countOccs_nomatch pat c pre hnc]
          exact hz
        · rw [replaceAll_nomatch pat rep c rest hc, hrep]
          simp

/-- Modelled from the spec: the pydantic site model
(`whatsmyname/app/models/schemas/sites.py` is not among the sources).
Field list follows §3 of the design document plus the fields
`process.py` reads or writes: `name`, `category`, `uri_check` (the URL
template), `e_code`/`m_code` (expected found/missing status codes),
`known` (recorded known-good usernames), `user_agent`, `valid`, and the
per-probe derived fields `username`, `generated_uri`,
`http_status_code`, `raw_response_data`.  Before dispatch no status has
been recorded, so `http_status_code` starts out as `none` (the spec
notes that a probe whose exception escapes the `except` clause leaves
"a stale default ... no status code recorded"). -/
structure SiteSchema where
  name : Str
  category : Str
  uri_check : Str
  e_code : Int
  m_code : Int
  known : List Str
  user_agent : Str
  valid : Bool
  username : Option Str
  generated_uri : Option Str
  http_status_code : Option Int
  raw_response_data : Option Str
deriving DecidableEq, Repr

/-- Modelled from the spec: the CLI options model
(`whatsmyname/app/models/schemas/cli.py` is not among the sources).
Fields follow §6 of the design document and the attributes `process.py`
reads.  `category := none` and `sites := []` model the unset (Python
falsy) states tested by `if cli_options.category:` and
`if cli_options.sites:`. -/
structure CliOptionsSchema where
  input_file : Str
  user_agent : Str
  category : Option Str
  sites : List Str
  usernames : List Str
  all : Bool
  not_found : Bool
  verbose : Bool
  capture_errors : Bool
  follow_redirects : Bool
  validate_knowns : Bool
  timeout : Nat
  per_request_timeout : Nat
deriving DecidableEq, Repr

/-- The placeholder token `{account}` of the URL templates. -/
def accountToken : Str := "\x7baccount\x7d".data

/-- The literal `http://{account}` tested by line 80 of the source. -/
def httpAccountToken : Str := "http://\x7baccount\x7d".data

/-- The literal `https://{account}` tested by line 80 of the source. -/
def httpsAccountToken : Str := "https://\x7baccount\x7d".data

/-- Python truthiness of `cli_options.category` (`None` and the empty
string are falsy). -/
def categoryActive (cli : CliOptionsSchema) : Bool :=
  cli.category.getD [] ≠ []

/-- One pass of the inner loop of `get_sites_list` (lines 40-44): for a
single requested name, collect every site whose name matches it
case-insensitively, in corpus order. -/
def collectMatchesFor (sites : List SiteSchema) (n : Str) : List SiteSchema :=
  sites.filter (fun s => decide (lowerStr s.name = lowerStr n))

/-- The nested loops of lines 40-44 of the source: requested names
outer, sites inner. -/
def collectMatches (sites : List SiteSchema) : List Str → List SiteSchema
  | [] => []
  | n :: rest => collectMatchesFor sites n ++ collectMatches sites rest

/-- The message of the `Exception` raised on line 46 of the source. -/
def noSitesMessage (cli : CliOptionsSchema) : Str :=
  "No sites with id(s) ".data ++
    List.intercalate " ".data cli.sites ++
    " used input file ".data ++ cli.input_file

/-- `get_sites_list` (lines 19-50 of the source).  The corpus read from
`cli_options.input_file` by the out-of-scope `site_file_extractor` is
passed in as `corpus`; the `raise Exception(...)` of line 46 becomes
`Except.error`. -/
def get_sites_list (cli : CliOptionsSchema) (corpus : List SiteSchema) :
    Except Str (List SiteSchema) :=
  let sites1 := corpus.filter (fun s => s.valid)
  let sites2 := sites1.map (fun s => { s with user_agent := cli.user_agent })
  let sites3 :=
    if categoryActive cli then
      sites2.filter
        (fun s => decide (lowerStr s.category = lowerStr (cli.category.getD [])))
    else sites2
  if cli.sites ≠ [] then
    let filtered := collectMatches sites3 cli.sites
    if filtered = [] then Except.error (noSitesMessage cli)
    else Except.ok filtered
  else Except.ok sites3

/-- Modelled from the spec (§4.1, first bullet): the validity filter,
stage one of the Corpus Filter pipeline. -/
def corpusValidityStage (corpus : List SiteSchema) : List SiteSchema :=
  corpus.filter (fun s => s.valid)

/-- Modelled from the spec (§4.1, second bullet): assign the configured
user agent to every remaining definition, stage two. -/
def corpusUserAgentStage (cli : CliOptionsSchema)
    (sites : List SiteSchema) : List SiteSchema :=
  sites.map (fun s => { s with user_agent := cli.user_agent })

/-- Modelled from the spec (§4.1, third bullet): the case-insensitive
category filter, applied only when a category is configured, stage
three. -/
def corpusCategoryStage (cli : CliOptionsSchema)
    (sites : List SiteSchema) : List SiteSchema :=
  if categoryActive cli then
    sites.filter
      (fun s => decide (lowerStr s.category = lowerStr (cli.category.getD [])))
  else sites

/-- Modelled from the spec (§4.1, fourth bullet): the case-insensitive
explicit name allow-list, applied only when configured; an empty match
set is a fatal configuration error, stage four. -/
def corpusNameStage (cli : CliOptionsSchema)
    (sites : List SiteSchema) : Except Str (List SiteSchema) :=
  if cli.sites ≠ [] then
    let filtered := collectMatches sites cli.sites
    if filtered = [] then Except.error (noSitesMessage cli)
    else Except.ok filtered
  else Except.ok sites

/-- The first three stages composed: what the source has computed just
before the name allow-list of lines 37-48 runs. -/
def sitesAfterStandardFilters (cli : CliOptionsSchema)
    (corpus : List SiteSchema) : List SiteSchema :=
  corpusCategoryStage cli (corpusUserAgentStage cli (corpusValidityStage corpus))

/-- The host-shaped-template test of line 80 of the source:
`site.uri_check.startswith('http://{account}') or
site.uri_check.startswith('https://{account}')`. -/
def hostShapedTemplate (t : Str) : Bool :=
  httpAccountToken.isPrefixOf t || httpsAccountToken.isPrefixOf t

/-- The skip rule of lines 80-82 of the source (github issue #55):
a host-shaped template together with a dotted username. -/
def skipPair (u : Str) (s : SiteSchema) : Bool :=
  hostShapedTemplate s.uri_check && u.contains '.'

/-- Lines 84-86 of the source: deep-copy the site, set the username,
and substitute the placeholder in the URL template. -/
def mkClone (u : Str) (s : SiteSchema) : SiteSchema :=
  { s with
      username := some u
      generated_uri := some (replaceAll accountToken u s.uri_check) }

/-- `filter_list_by` (lines 113-128 of the source).  `http_status_code`
is `Option Int` and Python's `None == code` is `False`, hence the
`Option.rec`-shaped comparison. -/
def codeEq (st : Option Int) (c : Int) : Bool :=
  match st with
  | some v => decide (v = c)
  | none => false

def filter_list_by (cli : CliOptionsSchema) (sites : List SiteSchema) :
    List SiteSchema :=
  if cli.all then sites
  else if cli.not_found then
    sites.filter (fun s => codeEq s.http_status_code s.m_code)
  else
    sites.filter (fun s => codeEq s.http_status_code s.e_code)

/-- The network layer seen by one `request_worker` call, abstracting
`aiohttp`.  `ok status body` is a completed `session.get` (the body is
what `response.text()` would return).  `exn statusBefore isCCE` is an
exception raised inside the `async with` block: `statusBefore` is
`some s` when the exception was raised only after `response.status` had
already been assigned (a failure during `response.text()`), and `isCCE`
records whether the exception is an `aiohttp.ClientConnectionError`.
Per `aiohttp`, the `sock_connect` and `sock_read` timeouts raise
`ServerTimeoutError`, a `ClientConnectionError` subclass (`isCCE =
true`), while the per-request total timeout raises
`asyncio.TimeoutError`, which is not a `ClientConnectionError`
(`isCCE = false`). -/
inductive NetResult where
  | ok (status : Int) (body : Str)
  | exn (statusBefore : Option Int) (isCCE : Bool)
deriving DecidableEq, Repr

/-- `request_worker` (lines 167-195 of the source).  The `try` body
assigns `response.status`, optionally reads the body, and returns; the
`except ClientConnectionError` clause assigns the sentinel `-1`; the
`finally: return site` swallows every other exception and returns the
site unchanged beyond what the `try` body already mutated. -/
def request_worker (cli : CliOptionsSchema) (res : NetResult)
    (site : SiteSchema) : SiteSchema :=
  match res with
  | NetResult.ok status body =>
    let site1 := { site with http_status_code := some status }
    if cli.verbose || cli.capture_errors then
      { site1 with raw_response_data := some body }
    else site1
  | NetResult.exn statusBefore isCCE =>
    let site1 :=
      match statusBefore with
      | some status => { site with http_status_code := some status }
      | none => site
    if isCCE then { site1 with http_status_code := some (-1) } else site1

/-- The task list and `gather` of `request_controller` (lines 155-164):
one `request_worker` future per site, results in task order.  `net i`
is the network outcome of the task spawned for descriptor `i`; the
index-threading recursion mirrors `gather` returning results in the
order the futures were created, independently of completion order. -/
def request_controller_aux (cli : CliOptionsSchema) (net : Nat → NetResult)
    (i : Nat) : List SiteSchema → List SiteSchema
  | [] => []
  | s :: rest =>
    request_worker cli (net i) s :: request_controller_aux cli net (i + 1) rest

/-- `request_controller` (lines 155-164 of the source). -/
def request_controller (cli : CliOptionsSchema) (net : Nat → NetResult)
    (sites : List SiteSchema) : List SiteSchema :=
  request_controller_aux cli net 0 sites

/-- The `user_site_map` dictionary of `generate_username_sites`,
as an insertion-ordered association list (Python dicts preserve
insertion order). -/
abbrev SiteMap := List (Str × List SiteSchema)

/-- Python `user_site_map.get(username)`: the value of the first entry
with the given key, or `None`. -/
def dictGet : SiteMap → Str → Option (List SiteSchema)
  | [], _ => none
  | p :: rest, u => if p.1 = u then some p.2 else dictGet rest u

/-- Python `user_site_map[username] = l`: overwrite in place when the
key exists (keeping its insertion position), otherwise append a new
entry at the end. -/
def dictSet : SiteMap → Str → List SiteSchema → SiteMap
  | [], u, l => [(u, l)]
  | p :: rest, u, l =>
    if p.1 = u then (p.1, l) :: rest else p :: dictSet rest u l

/-- Python `user_site_map[username].append(v)`: mutate the list stored
under the key (the source only calls this when the key exists). -/
def dictAppendAt : SiteMap → Str → SiteSchema → SiteMap
  | [], _, _ => []
  | p :: rest, u, v =>
    if p.1 = u then (p.1, p.2 ++ [v]) :: rest else p :: dictAppendAt rest u v

/-- Lines 87-89 of the source:
`if not user_site_map.get(username): user_site_map[username] = []`
followed by `user_site_map[username].append(site_clone)`.  A missing
key and an empty stored list are both falsy. -/
def dictAppendClone (m : SiteMap) (u : Str) (v : SiteSchema) : SiteMap :=
  dictAppendAt (if (dictGet m u).getD [] = [] then dictSet m u [] else m) u v

/-- The inner `for site in sites` loop of `generate_username_sites`
(lines 78-89), threading the dictionary. -/
def siteLoop (u : Str) : SiteMap → List SiteSchema → SiteMap
  | m, [] => m
  | m, s :: rest =>
    if skipPair u s then siteLoop u m rest
    else siteLoop u (dictAppendClone m u (mkClone u s)) rest

/-- The outer `for username in usernames` loop (lines 75-89). -/
def userLoop (sites : List SiteSchema) : SiteMap → List Str → SiteMap
  | m, [] => m
  | m, u :: rest => userLoop sites (siteLoop u m sites) rest

/-- Lines 91-93 of the source: flatten the dictionary into a single
list, entry by entry in insertion order. -/
def flattenSnd : SiteMap → List SiteSchema
  | [] => []
  | p :: rest => p.2 ++ flattenSnd rest

/-- `generate_username_sites` (lines 66-95 of the source). -/
def generate_username_sites (usernames : List Str)
    (sites : List SiteSchema) : List SiteSchema :=
  flattenSnd (userLoop sites [] usernames)

/-- The clones one username contributes, in site order: the inner loop
of the generator with the dictionary bookkeeping stripped away. -/
def cloneList (u : Str) : List SiteSchema → List SiteSchema
  | [] => []
  | s :: rest =>
    if skipPair u s then cloneList u rest
    else mkClone u s :: cloneList u rest

/-- Modelled from the spec (§4.2 ordering bullet and §9): the direct
nested-loop construction the design document describes — append each
constructed probe immediately, usernames outer, sites inner — used as
the specification side of the ordering refinement claim. -/
def generate_username_sites_spec : List Str → List SiteSchema → List SiteSchema
  | [], _ => []
  | u :: rest, sites =>
    cloneList u sites ++ generate_username_sites_spec rest sites

/-- `get_validated_site_list` (lines 53-63 of the source): one
generator call per site over that site's recorded known usernames,
outputs concatenated. -/
def get_validated_site_list : List SiteSchema → List SiteSchema
  | [] => []
  | s :: rest => generate_username_sites s.known [s] ++ get_validated_site_list rest

theorem request_controller_aux_length (cli : CliOptionsSchema)
    (net : Nat → NetResult) :
    ∀ (ss : List SiteSchema) (k : Nat),
      (request_controller_aux cli net k ss).length = ss.length := by
  intro ss
  induction ss with
  | nil => intro k; rfl
  | cons s rest ih =>
    intro k
    simp [request_controller_aux, ih (k + 1)]

theorem request_controller_aux_getElem (cli : CliOptionsSchema)
    (net : Nat → NetResult) :
    ∀ (ss : List SiteSchema) (k i : Nat),
      (request_controller_aux cli net k ss)[i]? =
        ss[i]?.map (fun s => request_worker cli (net (k + i)) s) := by
  intro ss
  induction ss with
  | nil => intro k i; simp [request_controller_aux]
  | cons s rest ih =>
    intro k i
    cases i with
    | zero => simp [request_controller_aux]
    | succ j =>
      have harith : k + 1 + j = k + (j + 1) := by omega
      simp only [request_controller_aux, List.getElem?_cons_succ]
      rw [ih (k + 1) j, harith]

/-- Shared concrete run configuration for the closed instances below. -/
def cliFixture : CliOptionsSchema :=
  { input_file := "web_accounts_list.json".data
    user_agent := "Mozilla".data
    category := none
    sites := []
    usernames := []
    all := false
    not_found := false
    verbose := false
    capture_errors := false
    follow_redirects := false
    validate_knowns := false
    timeout := 30
    per_request_timeout := 30 }

/-- Shared concrete path-template site for the closed instances below. -/
def siteFixture : SiteSchema :=
  { name := "ExampleSite".data
    category := "social".data
    uri_check := "https://example.com/\x7baccount\x7d".data
    e_code := 200
    m_code := 404
    known := []
    user_agent := []
    valid := true
    username := none
    generated_uri := none
    http_status_code := none
    raw_response_data := none }

/-- Shared concrete host-template site (`http://{account}.example.com`). -/
def siteHostFixture : SiteSchema :=
  { siteFixture with
    name := "HostSite".data
    uri_check := "http://\x7baccount\x7d.example.com".data }

/-- A network environment in which every probe raises an exception that
is not a `ClientConnectionError`. -/
def netFailAll : Nat → NetResult := fun _ => NetResult.exn none false

/-- Like `netFailAll`, except probe `0` completes with a 200. -/
def netOkZero : Nat → NetResult := fun j =>
  if j = 0 then NetResult.ok 200 [] else NetResult.exn none false

/-- C1: `request_controller` returns exactly one `ProbeOutcome` per
descriptor — the result list has the length of the input list — and the
result aligns positionally with the input: entry `i` is the worker
outcome of descriptor `i`, whatever the network does to each probe, so
no outcome is dropped or duplicated. -/
theorem request_controller_one_outcome_per_descriptor
    (cli : CliOptionsSchema) (net : Nat → NetResult)
    (sites : List SiteSchema) :
    (request_controller cli net sites).length = sites.length ∧
    ∀ i : Nat, (request_controller cli net sites)[i]? =
      sites[i]?.map (fun s => request_worker cli (net i) s) := by
  constructor
  · exact request_controller_aux_length cli net sites 0
  · intro i
    have h := request_controller_aux_getElem cli net sites 0 i
    simpa [request_controller] using h

/-- C2: the worker records the sentinel `-1` only for exceptions that
are `ClientConnectionError`s.  The `sock_connect` and `sock_read`
timeouts raise `ServerTimeoutError`, a `ClientConnectionError`, and get
the sentinel; the per-request total timeout raises
`asyncio.TimeoutError`, which is not a `ClientConnectionError`, escapes
the `except` clause, and is swallowed by `finally: return site`, so the
site comes back with no status recorded at all — on the fixture, still
`none`, not `-1`. -/
theorem request_worker_total_timeout_misses_sentinel :
    (∀ cli site, (request_worker cli (NetResult.exn none true) site).http_status_code
      = some (-1)) ∧
    (∀ cli site, request_worker cli (NetResult.exn none false) site = site) ∧
    (request_worker cliFixture (NetResult.exn none false) siteFixture).http_status_code
      = none ∧
    (request_worker cliFixture (NetResult.exn none false) siteFixture).http_status_code
      ≠ some (-1) := by
  refine ⟨fun cli site => rfl, fun cli site => rfl, rfl, by decide⟩

/-- C3: every exception path of `request_worker` — `ClientConnectionError`
or not — still returns the probe's own site object (the worker never
changes the descriptor's identity fields), and the outcome of any probe
`j` is unaffected by what the network does to a different probe `i`. -/
theorem request_worker_isolation (cli : CliOptionsSchema)
    (sites : List SiteSchema) (net1 net2 : Nat → NetResult) (i : Nat)
    (hagree : ∀ j, j ≠ i → net1 j = net2 j) :
    (∀ res site,
      (request_worker cli res site).name = site.name ∧
      (request_worker cli res site).username = site.username ∧
      (request_worker cli res site).generated_uri = site.generated_uri) ∧
    (∀ j, j ≠ i → (request_controller cli net1 sites)[j]? =
      (request_controller cli net2 sites)[j]?) := by
  constructor
  · intro res site
    cases res with
    | ok status body =>
      simp only [request_worker]
      split <;> simp
    | exn statusBefore isCCE =>
      cases statusBefore <;>
        · simp only [request_worker]
          split <;> simp
  · intro j hj
    have h1 := request_controller_aux_getElem cli net1 sites 0 j
    have h2 := request_controller_aux_getElem cli net2 sites 0 j
    simp only [request_controller]
    rw [h1, h2, show (0 : Nat) + j = j from Nat.zero_add j, hagree j hj]

/-- Closed instance of `request_worker_isolation`: probe 0 differs
between the two environments, probe 1 is unaffected. -/
theorem request_worker_isolation_witness :
    (request_controller cliFixture netFailAll [siteFixture, siteFixture])[1]? =
      (request_controller cliFixture netOkZero [siteFixture, siteFixture])[1]? ∧
    (request_worker cliFixture (NetResult.exn none false) siteFixture).name =
      siteFixture.name := by
  have h := request_worker_isolation cliFixture [siteFixture, siteFixture]
    netFailAll netOkZero 0
    (fun j hj => by simp [netFailAll, netOkZero, hj])
  exact ⟨h.2 1 (by decide), (h.1 (NetResult.exn none false) siteFixture).1⟩

theorem codeEq_eq_true_iff (st : Option Int) (c : Int) :
    codeEq st c = true ↔ st = some c := by
  cases st <;> simp [codeEq]

/-- Fixture outcome that hit the found code. -/
def siteStatusFound : SiteSchema := { siteFixture with http_status_code := some 200 }

/-- Fixture outcome that hit the missing code. -/
def siteStatusMissing : SiteSchema := { siteFixture with http_status_code := some 404 }

/-- Fixture outcome that failed at the transport level. -/
def siteStatusErr : SiteSchema := { siteFixture with http_status_code := some (-1) }

/-- Fixture configuration selecting the `all` output mode (with
`not_found` simultaneously set, exercising precedence). -/
def cliAllFixture : CliOptionsSchema :=
  { cliFixture with all := true, not_found := true }

/-- Fixture configuration selecting the `not-found` output mode. -/
def cliNotFoundFixture : CliOptionsSchema := { cliFixture with not_found := true }

/-- C7: with expected codes that are never the sentinel, `filter_list_by`
returns the whole input under `all`, exactly the outcomes whose status
equals the site's `m_code` under `not-found`, exactly those whose status
equals the site's `e_code` under the default `found` mode, and an
outcome carrying the sentinel `-1` survives only under `all`. -/
theorem filter_list_by_classification (cli : CliOptionsSchema)
    (sites : List SiteSchema)
    (hcodes : ∀ s ∈ sites, s.e_code ≠ -1 ∧ s.m_code ≠ -1) :
    (cli.all = true → filter_list_by cli sites = sites) ∧
    (cli.all = false → cli.not_found = true →
      ∀ s, s ∈ filter_list_by cli sites ↔
        s ∈ sites ∧ s.http_status_code = some s.m_code) ∧
    (cli.all = false → cli.not_found = false →
      ∀ s, s ∈ filter_list_by cli sites ↔
        s ∈ sites ∧ s.http_status_code = some s.e_code) ∧
    (cli.all = false →
      ∀ s ∈ filter_list_by cli sites, s.http_status_code ≠ some (-1)) := by
  refine ⟨?_, ?_, ?_, ?_⟩
  · intro ha; simp [filter_list_by, ha]
  · intro ha hn s
    simp [filter_list_by, ha, hn, List.mem_filter, codeEq_eq_true_iff]
  · intro ha hn s
    simp [filter_list_by, ha, hn, List.mem_filter, codeEq_eq_true_iff]
  · intro ha s hs hsent
    cases hn : cli.not_found with
    | true =>
      rw [filter_list_by, if_neg (by simp [ha]), if_pos hn] at hs
      have hmem := List.mem_filter.mp hs
      have hm : s.http_status_code = some s.m_code :=
        (codeEq_eq_true_iff _ _).mp hmem.2
      have hneg : s.m_code = -1 := by
        rw [hm] at hsent; exact Option.some_inj.mp hsent
      exact (hcodes s hmem.1).2 hneg
    | false =>
      rw [filter_list_by, if_neg (by simp [ha]), if_neg (by simp [hn])] at hs
      have hmem := List.mem_filter.mp hs
      have hm : s.http_status_code = some s.e_code :=
        (codeEq_eq_true_iff _ _).mp hmem.2
      have he : s.e_code = -1 := by
        rw [hm] at hsent; exact Option.some_inj.mp hsent
      exact (hcodes s hmem.1).1 he

/-- Closed instance of `filter_list_by_classification`: under `all` the
whole list survives; under the default `found` mode the sentinel
outcome is excluded. -/
theorem filter_list_by_classification_witness :
    filter_list_by cliAllFixture [siteStatusFound, siteStatusMissing, siteStatusErr] =
      [siteStatusFound, siteStatusMissing, siteStatusErr] ∧
    siteStatusErr ∉
      filter_list_by cliFixture [siteStatusFound, siteStatusMissing, siteStatusErr] := by
  constructor
  · exact (filter_list_by_classification cliAllFixture
      [siteStatusFound, siteStatusMissing, siteStatusErr] (by decide)).1 rfl
  · intro hmem
    exact (filter_list_by_classification cliFixture
      [siteStatusFound, siteStatusMissing, siteStatusErr] (by decide)).2.2.2
      rfl siteStatusErr hmem (by decide)

/-- C10: the output-mode flags resolve with `all` strictly first —
whenever `all` is set the input comes back unchanged, even if
`not_found` is set at the same time — and only when `all` is clear does
`not_found` select between the `m_code` filter and the default `e_code`
filter. -/
theorem filter_list_by_all_precedence (cli : CliOptionsSchema)
    (sites : List SiteSchema) (hall : cli.all = true) :
    filter_list_by cli sites = sites ∧
    (∀ cli2 : CliOptionsSchema, cli2.all = false →
      filter_list_by cli2 sites =
        if cli2.not_found = true then
          sites.filter (fun s => codeEq s.http_status_code s.m_code)
        else
          sites.filter (fun s => codeEq s.http_status_code s.e_code)) := by
  constructor
  · simp [filter_list_by, hall]
  · intro cli2 h2
    cases hn : cli2.not_found <;> simp [filter_list_by, h2, hn]

/-- Closed instance of `filter_list_by_all_precedence`: `all` and
`not_found` both set, the input is returned unchanged. -/
theorem filter_list_by_all_precedence_witness :
    filter_list_by cliAllFixture [siteStatusFound, siteStatusMissing, siteStatusErr] =
      [siteStatusFound, siteStatusMissing, siteStatusErr] ∧
    cliAllFixture.not_found = true := by
  refine ⟨(filter_list_by_all_precedence cliAllFixture
    [siteStatusFound, siteStatusMissing, siteStatusErr] rfl).1, rfl⟩

theorem mem_collectMatches (sites : List SiteSchema) :
    ∀ (ns : List Str) (x : SiteSchema),
      x ∈ collectMatches sites ns ↔
        ∃ n ∈ ns, x ∈ sites ∧ lowerStr x.name = lowerStr n := by
  intro ns
  induction ns with
  | nil => intro x; simp [collectMatches]
  | cons n rest ih =>
    intro x
    simp only [collectMatches, collectMatchesFor, List.mem_append,
      List.mem_filter, decide_eq_true_eq, ih x, List.mem_cons]
    constructor
    · rintro (⟨hx, he⟩ | ⟨n', hn', hx, he⟩)
      · exact ⟨n, Or.inl rfl, hx, he⟩
      · exact ⟨n', Or.inr hn', hx, he⟩
    · rintro ⟨n', hn' | hn', hx, he⟩
      · exact Or.inl ⟨hx, hn' ▸ he⟩
      · exact Or.inr ⟨n', hn', hx, he⟩

theorem collectMatches_eq_nil_iff (sites : List SiteSchema) (ns : List Str) :
    collectMatches sites ns = [] ↔
      ∀ n ∈ ns, ∀ s ∈ sites, lowerStr s.name ≠ lowerStr n := by
  rw [List.eq_nil_iff_forall_not_mem]
  constructor
  · intro h n hn s hs heq
    exact h s ((mem_collectMatches sites ns s).mpr ⟨n, hn, hs, heq⟩)
  · intro h x hx
    obtain ⟨n, hn, hs, heq⟩ := (mem_collectMatches sites ns x).mp hx
    exact h n hn x hs heq

/-- The source text of `get_sites_list` is literally the four-stage
pipeline of §4.1, so the two sides agree definitionally. -/
theorem get_sites_list_stage_decomp (cli : CliOptionsSchema)
    (corpus : List SiteSchema) :
    get_sites_list cli corpus =
      corpusNameStage cli (sitesAfterStandardFilters cli corpus) := rfl

/-- C6: with an explicit site-name allow-list configured, a match set
that is empty after the validity and category filters makes
`get_sites_list` fail with the configuration error (an `Except.error`,
not an empty `Except.ok` result — and no network request is modelled
anywhere in `get_sites_list`); otherwise the returned list holds
exactly the filtered sites whose name matches one of the requested
names case-insensitively. -/
theorem get_sites_list_allowlist (cli : CliOptionsSchema)
    (corpus : List SiteSchema) (hconf : cli.sites ≠ []) :
    ((∀ n ∈ cli.sites, ∀ s ∈ sitesAfterStandardFilters cli corpus,
        lowerStr s.name ≠ lowerStr n) →
      get_sites_list cli corpus = Except.error (noSitesMessage cli)) ∧
    (∀ result, get_sites_list cli corpus = Except.ok result →
      ∀ x, x ∈ result ↔
        x ∈ sitesAfterStandardFilters cli corpus ∧
          ∃ n ∈ cli.sites, lowerStr x.name = lowerStr n) := by
  rw [get_sites_list_stage_decomp]
  unfold corpusNameStage
  rw [if_pos hconf]
  constructor
  · intro hnom
    rw [if_pos ((collectMatches_eq_nil_iff _ _).mpr hnom)]
  · intro result hok x
    by_cases hfil :
        collectMatches (sitesAfterStandardFilters cli corpus) cli.sites = []
    · rw [if_pos hfil] at hok
      exact absurd hok (by simp)
    · rw [if_neg hfil] at hok
      have hres : result =
          collectMatches (sitesAfterStandardFilters cli corpus) cli.sites := by
        cases hok; rfl
      rw [hres, mem_collectMatches]
      tauto

/-- Fixture configuration whose allow-list matches no site name. -/
def cliNoMatchFixture : CliOptionsSchema :=
  { cliFixture with sites := [("nosuchsite".data)] }

/-- Closed instance of `get_sites_list_allowlist`: the allow-list
`["nosuchsite"]` matches nothing in the one-site corpus, so the result
is the configuration error. -/
theorem get_sites_list_allowlist_witness :
    get_sites_list cliNoMatchFixture [siteFixture] =
      Except.error (noSitesMessage cliNoMatchFixture) := by
  exact (get_sites_list_allowlist cliNoMatchFixture [siteFixture]
    (by decide)).1 (by decide)

/-- C9: `get_sites_list` is a pure function of the corpus and the run
configuration — identical inputs give identical outputs — and it
factors as the §4.1 pipeline: validity filter, then user-agent
assignment, then the category filter, then the name allow-list. -/
theorem get_sites_list_pure_staged (cli : CliOptionsSchema)
    (corpus : List SiteSchema) :
    get_sites_list cli corpus =
      corpusNameStage cli
        (corpusCategoryStage cli
          (corpusUserAgentStage cli (corpusValidityStage corpus))) ∧
    (∀ (cli2 : CliOptionsSchema) (corpus2 : List SiteSchema),
      cli2 = cli → corpus2 = corpus →
      get_sites_list cli2 corpus2 = get_sites_list cli corpus) := by
  refine ⟨rfl, ?_⟩
  intro cli2 corpus2 h1 h2
  rw [h1, h2]

/-- Closed instance of `get_sites_list_pure_staged` on the fixtures. -/
theorem get_sites_list_pure_staged_witness :
    get_sites_list cliFixture [siteFixture, siteHostFixture] =
      corpusNameStage cliFixture
        (corpusCategoryStage cliFixture
          (corpusUserAgentStage cliFixture
            (corpusValidityStage [siteFixture, siteHostFixture]))) ∧
    get_sites_list cliFixture [siteFixture, siteHostFixture] =
      get_sites_list cliFixture [siteFixture, siteHostFixture] := by
  refine ⟨(get_sites_list_pure_staged cliFixture [siteFixture, siteHostFixture]).1, ?_⟩
  exact (get_sites_list_pure_staged cliFixture [siteFixture, siteHostFixture]).2
    cliFixture [siteFixture, siteHostFixture] rfl rfl

theorem dictGet_eq_none (u : Str) :
    ∀ m : SiteMap, (∀ p ∈ m, p.1 ≠ u) → dictGet m u = none := by
  intro m
  induction m with
  | nil => intro _; rfl
  | cons p rest ih =>
    intro h
    have hp : p.1 ≠ u := h p (List.mem_cons_self p rest)
    simp only [dictGet, if_neg hp]
    exact ih (fun q hq => h q (List.mem_cons_of_mem p hq))

theorem dictGet_none_forall (u : Str) :
    ∀ m : SiteMap, dictGet m u = none → ∀ p ∈ m, p.1 ≠ u := by
  intro m
  induction m with
  | nil => intro _ p hp; exact absurd hp (List.not_mem_nil p)
  | cons q rest ih =>
    intro h p hp
    by_cases hq : q.1 = u
    · rw [dictGet, if_pos hq] at h; exact absurd h (by simp)
    · rw [dictGet, if_neg hq] at h
      rcases List.mem_cons.mp hp with rfl | hp'
      · exact hq
      · exact ih h p hp'

theorem dictGet_split (u : Str) (l : List SiteSchema) :
    ∀ m : SiteMap, dictGet m u = some l →
      ∃ m1 m2, m = m1 ++ (u, l) :: m2 ∧ ∀ p ∈ m1, p.1 ≠ u := by
  intro m
  induction m with
  | nil => intro h; exact absurd h (by simp [dictGet])
  | cons q rest ih =>
    intro h
    by_cases hq : q.1 = u
    · rw [dictGet, if_pos hq] at h
      have hl : q.2 = l := Option.some_inj.mp h
      refine ⟨[], rest, ?_, by simp⟩
      simp [← hq, ← hl]
    · rw [dictGet, if_neg hq] at h
      obtain ⟨m1, m2, heq, hf⟩ := ih h
      refine ⟨q :: m1, m2, by simp [heq], ?_⟩
      intro p hp
      rcases List.mem_cons.mp hp with rfl | hp'
      · exact hq
      · exact hf p hp'

theorem dictGet_append_cons (u : Str) (l : List SiteSchema) (m2 : SiteMap) :
    ∀ m1 : SiteMap, (∀ p ∈ m1, p.1 ≠ u) →
      dictGet (m1 ++ (u, l) :: m2) u = some l := by
  intro m1
  induction m1 with
  | nil => intro _; simp [dictGet]
  | cons p rest ih =>
    intro h
    have hp : p.1 ≠ u := h p (List.mem_cons_self p rest)
    simp only [List.cons_append, dictGet, if_neg hp]
    exact ih (fun q hq => h q (List.mem_cons_of_mem p hq))

theorem dictSet_fresh (u : Str) (l : List SiteSchema) :
    ∀ m : SiteMap, (∀ p ∈ m, p.1 ≠ u) → dictSet m u l = m ++ [(u, l)] := by
  intro m
  induction m with
  | nil => intro _; rfl
  | cons p rest ih =>
    intro h
    have hp : p.1 ≠ u := h p (List.mem_cons_self p rest)
    simp only [dictSet, if_neg hp, List.cons_append]
    rw [ih (fun q hq => h q (List.mem_cons_of_mem p hq))]

theorem dictSet_found (u : Str) (l l' : List SiteSchema) (m2 : SiteMap) :
    ∀ m1 : SiteMap, (∀ p ∈ m1, p.1 ≠ u) →
      dictSet (m1 ++ (u, l) :: m2) u l' = m1 ++ (u, l') :: m2 := by
  intro m1
  induction m1 with
  | nil => intro _; simp [dictSet]
  | cons p rest ih =>
    intro h
    have hp : p.1 ≠ u := h p (List.mem_cons_self p rest)
    simp only [List.cons_append, dictSet, if_neg hp]
    exact congrArg (fun t => p :: t) (ih (fun q hq => h q (List.mem_cons_of_mem p hq)))

theorem dictAppendAt_found (u : Str) (l : List SiteSchema) (m2 : SiteMap)
    (v : SiteSchema) :
    ∀ m1 : SiteMap, (∀ p ∈ m1, p.1 ≠ u) →
      dictAppendAt (m1 ++ (u, l) :: m2) u v = m1 ++ (u, l ++ [v]) :: m2 := by
  intro m1
  induction m1 with
  | nil => intro _; simp [dictAppendAt]
  | cons p rest ih =>
    intro h
    have hp : p.1 ≠ u := h p (List.mem_cons_self p rest)
    simp only [List.cons_append, dictAppendAt, if_neg hp]
    exact congrArg (fun t => p :: t) (ih (fun q hq => h q (List.mem_cons_of_mem p hq)))

theorem dictAppendClone_fresh (m : SiteMap) (u : Str) (v : SiteSchema)
    (h : ∀ p ∈ m, p.1 ≠ u) : dictAppendClone m u v = m ++ [(u, [v])] := by
  unfold dictAppendClone
  rw [dictGet_eq_none u m h]
  simp only [Option.getD_none, if_pos rfl]
  rw [dictSet_fresh u [] m h]
  have := dictAppendAt_found u [] [] v m h
  simpa using this

theorem dictAppendClone_found (u : Str) (l : List SiteSchema) (m2 : SiteMap)
    (v : SiteSchema) (m1 : SiteMap) (h : ∀ p ∈ m1, p.1 ≠ u) :
    dictAppendClone (m1 ++ (u, l) :: m2) u v = m1 ++ (u, l ++ [v]) :: m2 := by
  unfold dictAppendClone
  rw [dictGet_append_cons u l m2 m1 h]
  by_cases hl : l = []
  · subst hl
    simp only [Option.getD_some, if_pos rfl]
    rw [dictSet_found u [] [] m2 m1 h]
    exact dictAppendAt_found u [] m2 v m1 h
  · rw [Option.getD_some, if_neg hl]
    exact dictAppendAt_found u l m2 v m1 h

theorem siteLoop_found (u : Str) :
    ∀ (ss : List SiteSchema) (l : List SiteSchema) (m1 m2 : SiteMap),
      (∀ p ∈ m1, p.1 ≠ u) →
      siteLoop u (m1 ++ (u, l) :: m2) ss = m1 ++ (u, l ++ cloneList u ss) :: m2 := by
  intro ss
  induction ss with
  | nil => intro l m1 m2 _; simp [siteLoop, cloneList]
  | cons s rest ih =>
    intro l m1 m2 h
    by_cases hs : skipPair u s
    · simp only [siteLoop, if_pos hs]
      rw [ih l m1 m2 h]
      simp [cloneList, hs]
    · simp only [siteLoop, if_neg hs]
      rw [dictAppendClone_found u l m2 (mkClone u s) m1 h,
        ih (l ++ [mkClone u s]) m1 m2 h]
      simp [cloneList, hs]

theorem siteLoop_fresh (u : Str) :
    ∀ (ss : List SiteSchema) (m : SiteMap), (∀ p ∈ m, p.1 ≠ u) →
      siteLoop u m ss =
        if cloneList u ss = [] then m else m ++ [(u, cloneList u ss)] := by
  intro ss
  induction ss with
  | nil => intro m _; simp [siteLoop, cloneList]
  | cons s rest ih =>
    intro m h
    by_cases hs : skipPair u s
    · simp only [siteLoop, if_pos hs, cloneList]
      exact ih m h
    · simp only [siteLoop, if_neg hs]
      rw [dictAppendClone_fresh m u (mkClone u s) h]
      have hfound := siteLoop_found u rest [mkClone u s] m [] h
      simp only [List.append_nil] at hfound
      rw [hfound]
      simp [cloneList, hs]

theorem flattenSnd_append :
    ∀ a b : SiteMap, flattenSnd (a ++ b) = flattenSnd a ++ flattenSnd b := by
  intro a
  induction a with
  | nil => intro b; rfl
  | cons p rest ih =>
    intro b
    simp [flattenSnd, ih b]

theorem mem_flattenSnd :
    ∀ (m : SiteMap) (x : SiteSchema),
      x ∈ flattenSnd m ↔ ∃ p ∈ m, x ∈ p.2 := by
  intro m
  induction m with
  | nil => intro x; simp [flattenSnd]
  | cons p rest ih =>
    intro x
    simp [flattenSnd, List.mem_append, ih x]

theorem mem_cloneList (u : Str) :
    ∀ (ss : List SiteSchema) (x : SiteSchema),
      x ∈ cloneList u ss ↔
        ∃ s ∈ ss, skipPair u s = false ∧ x = mkClone u s := by
  intro ss
  induction ss with
  | nil => intro x; simp [cloneList]
  | cons s rest ih =>
    intro x
    by_cases hs : skipPair u s
    · simp [cloneList, hs, ih x]
    · simp only [cloneList, if_neg hs, List.mem_cons, ih x]
      constructor
      · rintro (rfl | ⟨s', hs', hsk, rfl⟩)
        · exact ⟨s, Or.inl rfl, Bool.of_not_eq_true hs, rfl⟩
        · exact ⟨s', Or.inr hs', hsk, rfl⟩
      · rintro ⟨s', rfl | hs', hsk, rfl⟩
        · exact Or.inl rfl
        · exact Or.inr ⟨s', hs', hsk, rfl⟩

theorem mem_siteLoop (u : Str) (ss : List SiteSchema) (m : SiteMap)
    (x : SiteSchema) :
    x ∈ flattenSnd (siteLoop u m ss) ↔
      x ∈ flattenSnd m ∨ x ∈ cloneList u ss := by
  cases hg : dictGet m u with
  | none =>
    have h := dictGet_none_forall u m hg
    rw [siteLoop_fresh u ss m h]
    by_cases hcl : cloneList u ss = []
    · simp [hcl]
    · rw [if_neg hcl, flattenSnd_append]
      simp [flattenSnd]
  | some l =>
    obtain ⟨m1, m2, heq, hf⟩ := dictGet_split u l m hg
    subst heq
    rw [siteLoop_found u ss l m1 m2 hf, flattenSnd_append, flattenSnd_append]
    simp only [flattenSnd, List.mem_append, List.append_nil]
    tauto

theorem mem_userLoop (sites : List SiteSchema) :
    ∀ (us : List Str) (m : SiteMap) (x : SiteSchema),
      x ∈ flattenSnd (userLoop sites m us) ↔
        x ∈ flattenSnd m ∨ ∃ u ∈ us, x ∈ cloneList u sites := by
  intro us
  induction us with
  | nil => intro m x; simp [userLoop]
  | cons u rest ih =>
    intro m x
    simp only [userLoop]
    rw [ih (siteLoop u m sites) x, mem_siteLoop u sites m x]
    simp only [List.mem_cons]
    constructor
    · rintro ((hm | hc) | ⟨u', hu', hc⟩)
      · exact Or.inl hm
      · exact Or.inr ⟨u, Or.inl rfl, hc⟩
      · exact Or.inr ⟨u', Or.inr hu', hc⟩
    · rintro (hm | ⟨u', hu' | hu', hc⟩)
      · exact Or.inl (Or.inl hm)
      · exact Or.inl (Or.inr (hu' ▸ hc))
      · exact Or.inr ⟨u', hu', hc⟩

/-- Membership characterization of the generator: the outputs are
exactly the clones of the non-skipped (username, site) pairs. -/
theorem mem_generate_username_sites (usernames : List Str)
    (sites : List SiteSchema) (x : SiteSchema) :
    x ∈ generate_username_sites usernames sites ↔
      ∃ u ∈ usernames, ∃ s ∈ sites, skipPair u s = false ∧ x = mkClone u s := by
  unfold generate_username_sites
  rw [mem_userLoop sites usernames [] x]
  simp only [flattenSnd, List.not_mem_nil, false_or]
  constructor
  · rintro ⟨u, hu, hc⟩
    obtain ⟨s, hs, hsk, rfl⟩ := (mem_cloneList u sites x).mp hc
    exact ⟨u, hu, s, hs, hsk, rfl⟩
  · rintro ⟨u, hu, s, hs, hsk, rfl⟩
    exact ⟨u, hu, (mem_cloneList u sites _).mpr ⟨s, hs, hsk, rfl⟩⟩

theorem userLoop_nodup (sites : List SiteSchema) :
    ∀ (us : List Str) (m : SiteMap), (∀ p ∈ m, p.1 ∉ us) → us.Nodup →
      flattenSnd (userLoop sites m us) =
        flattenSnd m ++ generate_username_sites_spec us sites := by
  intro us
  induction us with
  | nil => intro m _ _; simp [userLoop, generate_username_sites_spec]
  | cons u rest ih =>
    intro m h hnd
    obtain ⟨hu_rest, hnd_rest⟩ := List.nodup_cons.mp hnd
    have hu : ∀ p ∈ m, p.1 ≠ u := fun p hp he =>
      h p hp (by rw [he]; exact List.mem_cons_self u rest)
    simp only [userLoop]
    rw [siteLoop_fresh u sites m hu]
    by_cases hcl : cloneList u sites = []
    · rw [if_pos hcl]
      rw [ih m (fun p hp hin => h p hp (List.mem_cons_of_mem u hin)) hnd_rest]
      simp [generate_username_sites_spec, hcl]
    · rw [if_neg hcl]
      have hfresh : ∀ p ∈ m ++ [(u, cloneList u sites)], p.1 ∉ rest := by
        intro p hp
        rcases List.mem_append.mp hp with hp' | hp'
        · exact fun hin => h p hp' (List.mem_cons_of_mem u hin)
        · have hpe : p = (u, cloneList u sites) := by simpa using hp'
          rw [hpe]; exact hu_rest
      rw [ih (m ++ [(u, cloneList u sites)]) hfresh hnd_rest, flattenSnd_append]
      simp [flattenSnd, generate_username_sites_spec]

/-- C4: the generator's eligibility rule, exactly as line 80 states it.
Every generated descriptor with a dotted username comes from a template
that is not host-shaped (`http://{account}`… or `https://{account}`…);
and for every (username, site) pair whose template is not host-shaped —
dotted username or not — the clone is generated. -/
theorem generate_username_sites_dot_rule (usernames : List Str)
    (sites : List SiteSchema) :
    (∀ d ∈ generate_username_sites usernames sites,
      ∀ u, d.username = some u → u.contains '.' = true →
        hostShapedTemplate d.uri_check = false) ∧
    (∀ u ∈ usernames, ∀ s ∈ sites, hostShapedTemplate s.uri_check = false →
        mkClone u s ∈ generate_username_sites usernames sites) := by
  constructor
  · intro d hd u hu hdot
    obtain ⟨u', hu', s, hs, hsk, rfl⟩ :=
      (mem_generate_username_sites usernames sites d).mp hd
    have huu : u' = u := Option.some_inj.mp hu
    rw [← huu] at hdot
    have hcheck : (mkClone u' s).uri_check = s.uri_check := rfl
    rw [hcheck]
    rw [skipPair, Bool.and_eq_false_iff] at hsk
    rcases hsk with hsk | hsk
    · exact hsk
    · rw [hdot] at hsk; exact absurd hsk (by simp)
  · intro u hu s hs htemp
    refine (mem_generate_username_sites usernames sites _).mpr
      ⟨u, hu, s, hs, ?_, rfl⟩
    rw [skipPair, htemp]
    rfl

/-- Closed instance of `generate_username_sites_dot_rule`: the dotted
username `al.ice` Still generates the path-template probe (and that
probe's template is indeed not host-shaped), while the corpus also
contains a host-template site. -/
theorem generate_username_sites_dot_rule_witness :
    mkClone ("al.ice".data) siteFixture ∈
      generate_username_sites [("al.ice".data)] [siteFixture, siteHostFixture] ∧
    hostShapedTemplate (mkClone ("al.ice".data) siteFixture).uri_check = false := by
  have h := generate_username_sites_dot_rule [("al.ice".data)]
    [siteFixture, siteHostFixture]
  have hmem := h.2 ("al.ice".data) (by decide) siteFixture (by decide) (by decide)
  exact ⟨hmem, h.1 _ hmem ("al.ice".data) rfl (by decide)⟩

/-- Fixture site whose template static text already contains the
username that will be substituted (`a{account}`). -/
def siteCexFixture : SiteSchema :=
  { siteFixture with
    name := "CexSite".data
    uri_check := "a\x7baccount\x7d".data }

/-- C5 counterexample: the claim "the resolved URI contains the literal
username exactly once" fails as stated.  With username `a` and template
`a{account}` — a template containing the placeholder exactly once — the
generated descriptor resolves to `aa`, which contains the username
twice. -/
theorem generated_uri_exactly_once_counterexample :
    mkClone ("a".data) siteCexFixture ∈
      generate_username_sites [("a".data)] [siteCexFixture] ∧
    countOccs accountToken siteCexFixture.uri_check = 1 ∧
    (mkClone ("a".data) siteCexFixture).generated_uri = some ("aa".data) ∧
    countOccs ("a".data) ("aa".data) = 2 := by
  refine ⟨by decide, by decide, by decide, by decide⟩

/-- C5 (amended): for every generated descriptor whose template
contains the placeholder exactly once, the resolved URI is the template
with that unique placeholder occurrence replaced in place by the
literal username — `uri_check = pre ++ accountToken ++ suf` with no
occurrence inside `pre`, and `generated_uri = pre ++ username ++ suf`.
(The literal username need not appear exactly once, and a placeholder
token can survive, when the username overlaps the surrounding template
text.) -/
theorem generated_uri_single_placeholder (usernames : List Str)
    (sites : List SiteSchema) :
    ∀ d ∈ generate_username_sites usernames sites,
      ∀ u, d.username = some u →
        countOccs accountToken d.uri_check = 1 →
        ∃ pre suf, d.uri_check = pre ++ accountToken ++ suf ∧
          countOccs accountToken pre = 0 ∧
          d.generated_uri = some (pre ++ u ++ suf) := by
  intro d hd u hu hcount
  obtain ⟨u', hu', s, hs, hsk, rfl⟩ :=
    (mem_generate_username_sites usernames sites d).mp hd
  have huu : u' = u := Option.some_inj.mp hu
  subst huu
  have hcheck : (mkClone u' s).uri_check = s.uri_check := rfl
  rw [hcheck] at hcount ⊢
  obtain ⟨pre, suf, hdec, hz, hrep⟩ :=
    replaceAll_single_occurrence accountToken u' (by decide) s.uri_check hcount
  refine ⟨pre, suf, hdec, hz, ?_⟩
  show some (replaceAll accountToken u' s.uri_check) = some (pre ++ u' ++ suf)
  rw [hrep]

/-- Closed instance of `generated_uri_single_placeholder` on the
`https://example.com/{account}` fixture with username `alice`. -/
theorem generated_uri_single_placeholder_witness :
    ∃ pre suf,
      (mkClone ("alice".data) siteFixture).uri_check =
        pre ++ accountToken ++ suf ∧
      countOccs accountToken pre = 0 ∧
      (mkClone ("alice".data) siteFixture).generated_uri =
        some (pre ++ ("alice".data) ++ suf) := by
  exact generated_uri_single_placeholder [("alice".data)] [siteFixture]
    (mkClone ("alice".data) siteFixture) (by decide) ("alice".data) rfl (by decide)

/-- C8 counterexample: with the duplicated username list `[a, b, a]`
the dictionary groups both `a` passes under the single key `a`, so the
flattened output is `[a-clone, a-clone, b-clone]`, while the direct
nested-loop order is `[a-clone, b-clone, a-clone]` — the claim fails
for username lists with repeated entries. -/
theorem generate_username_sites_order_counterexample :
    generate_username_sites [("a".data), ("b".data), ("a".data)] [siteFixture] ≠
      generate_username_sites_spec
        [("a".data), ("b".data), ("a".data)] [siteFixture] := by
  decide

/-- C8 (amended): when the username list has no duplicate entries, the
dictionary-then-flatten construction returns exactly the nested-loop
insertion order — username-major (usernames outer), site order within
each username. -/
theorem generate_username_sites_nodup_order (usernames : List Str)
    (sites : List SiteSchema) (hnd : usernames.Nodup) :
    generate_username_sites usernames sites =
      generate_username_sites_spec usernames sites := by
  unfold generate_username_sites
  rw [userLoop_nodup sites usernames [] (by simp) hnd]
  rfl

/-- Closed instance of `generate_username_sites_nodup_order` on a
duplicate-free username list. -/
theorem generate_username_sites_nodup_order_witness :
    generate_username_sites [("a".data), ("b".data)]
        [siteFixture, siteHostFixture] =
      generate_username_sites_spec [("a".data), ("b".data)]
        [siteFixture, siteHostFixture] := by
  exact generate_username_sites_nodup_order [("a".data), ("b".data)]
    [siteFixture, siteHostFixture] (by decide)
